import Mathlib

/-!
Verification development for the mcp-graphql-metatool repository.

The repository is a TypeScript MCP server that turns GraphQL queries into
dynamically registered tools.  The definitions below are a shallow embedding
of the modules relevant to the verified claims:

* `src/tools/saveQuery.ts` — the save use case (guards, persist-then-register
  ordering, variable extraction via the regex `/\$(\w+)/g`);
* `src/dynamicToolHandler.ts` — the per-tool invocation handler (manual
  JSON-Schema → zod conversion, zod object parsing, variable mapping,
  GraphQL call);
* `src/jsonSchemaValidator.ts` — the schema validity guard and the manual
  (table-driven) converter, textually identical to the copy in
  `dynamicToolHandler.ts`;
* `src/storage.ts` — `loadAllTools` / `loadToolFromFile` / `isValidToolConfig`;
* `src/tools/deleteSavedQuery.ts` — not present in the source tree; modelled
  from the specification (§4.4) and its test suite.

JavaScript values are modelled by `Json` (numbers as rationals, which keeps
the `z.number().int()` integrality check expressible).  JS objects are
association lists; property reads take the first matching key.  External
effects (file writes, host-layer registration, the GraphQL client) are
modelled by explicit fault parameters and call traces.
-/

/-- JSON / JavaScript values as passed between the MCP layer and the handlers.
Numbers are rationals so that the zod integer check is expressible. -/
inductive Json where
  | null
  | bool (b : Bool)
  | num (q : Rat)
  | str (s : String)
  | arr (elems : List Json)
  | obj (fields : List (String × Json))

/-- First-match lookup in an association list, the model of a JS property
read on an object whose keys are unique. -/
def lookupEntry {α : Type} : List (String × α) → String → Option α
  | [], _ => none
  | (k0, v0) :: rest, k => if k0 = k then some v0 else lookupEntry rest k

/-- Assignment `o[k] = v` on a JS object: an existing key keeps its position
and gets the new value, a new key is appended. -/
def setEntry {α : Type} : List (String × α) → String → α → List (String × α)
  | [], k, v => [(k, v)]
  | (k0, v0) :: rest, k, v =>
      if k0 = k then (k0, v) :: rest else (k0, v0) :: setEntry rest k v

/-- Property read `j[k]` for the purposes of this embedding: only objects
have named properties, everything else yields `undefined` (`none`). -/
def getField : Json → String → Option Json
  | .obj fields, k => lookupEntry fields k
  | _, _ => none

/-- Result of JavaScript `typeof` on a `Json` value (`typeof null` is
`"object"`, as in JS). -/
def jsTypeof : Json → String
  | .null => "object"
  | .bool _ => "boolean"
  | .num _ => "number"
  | .str _ => "string"
  | .arr _ => "object"
  | .obj _ => "object"

/-- JavaScript truthiness of a `Json` value. -/
def truthy : Json → Bool
  | .null => false
  | .bool b => b
  | .num q => !(q = 0)
  | .str s => !s.isEmpty
  | .arr _ => true
  | .obj _ => true

/-- Whether the value is JS `null`. -/
def Json.isNull : Json → Bool
  | .null => true
  | _ => false

/-- Characters matched by the regex class `\w`: ASCII letters, digits and
underscore. -/
def isWordChar (c : Char) : Bool :=
  c.isAlphanum || c = '_'

/-- Single left-to-right pass of the global regex match `/\$(\w+)/g`, with
the leading `$` already sliced off each match.  The first argument is the
match in progress: `none` outside a match attempt, `some acc` when a `$` has
been seen and `acc` holds the word characters read so far (reversed).  A
maximal nonempty run of word characters after a `$` is emitted as one match,
and scanning resumes at the character that ended the run, which may itself
start the next match — exactly the regex engine's behaviour of restarting at
the end of the previous match (or one character later when the `$` is not
followed by a word character). -/
def scanVarsAux : Option (List Char) → List Char → List String
  | none, [] => []
  | some acc, [] => if acc.isEmpty then [] else [String.mk acc.reverse]
  | none, c :: rest =>
      if c = '$' then scanVarsAux (some []) rest else scanVarsAux none rest
  | some acc, c :: rest =>
      if isWordChar c then scanVarsAux (some (c :: acc)) rest
      else if acc.isEmpty then
        (if c = '$' then scanVarsAux (some []) rest else scanVarsAux none rest)
      else
        String.mk acc.reverse ::
          (if c = '$' then scanVarsAux (some []) rest else scanVarsAux none rest)

/-- Names of the `$name` tokens of a character sequence, in match order and
with duplicates kept: the model of `query.match(/\$(\w+)/g)` followed by
`.map(m => m.slice(1))` (an absent match yields the empty list, as the
source's `?? []` / `|| []` fallbacks do). -/
def scanVars (cs : List Char) : List String :=
  scanVarsAux none cs

/-- One step of JS `Set` insertion order: an element already seen is
skipped, a new one is emitted and remembered. -/
def dedupFirstAux (seen : List String) : List String → List String
  | [] => []
  | x :: xs =>
      if seen.contains x then dedupFirstAux seen xs
      else x :: dedupFirstAux (x :: seen) xs

/-- Model of `[...new Set(xs)]`: deduplicate keeping the first occurrence of
each element, preserving first-occurrence order. -/
def dedupFirst (l : List String) : List String :=
  dedupFirstAux [] l

/-- Embedding of `extractGraphQLVariables` (`src/tools/saveQuery.ts`, the
identical copy also appears in `createSavedQueryTool.ts`):
`[...new Set(query.match(/\$(\w+)/g).map(m => m.slice(1)))]`. -/
def extractGraphQLVariables (query : String) : List String :=
  dedupFirst (scanVars query.data)

/-- One step of the loop body of the invocation-time `extractVariables`
(`src/dynamicToolHandler.ts`): if the validated params hold a defined value
under the matched name, assign it into the variables object. -/
def applyVar (params : List (String × Json)) (acc : List (String × Json))
    (name : String) : List (String × Json) :=
  match lookupEntry params name with
  | some v => setEntry acc name v
  | none => acc

/-- Embedding of `extractVariables(query, params)` from
`src/dynamicToolHandler.ts`: rescan the query for `$name` tokens and copy
each name's defined value from the validated params into a fresh variables
object. -/
def extractVariables (query : String) (params : List (String × Json)) :
    List (String × Json) :=
  (scanVars query.data).foldl (applyVar params) []

/-- Runtime validators produced by the manual JSON-Schema → zod conversion:
`z.string()`, `z.number()`, `z.number().int()`, `z.boolean()`,
`z.array(item)` and `z.any()`. -/
inductive ZodField where
  | zstring
  | znumber
  | zint
  | zboolean
  | zarray (item : ZodField)
  | zany

mutual

/-- Embedding of `createZodFieldFromJsonSchema` (`src/dynamicToolHandler.ts`
lines 88–104; textually identical copies in `jsonSchemaValidator.ts` and
`createSavedQueryTool.ts`): switch on the schema's `type`; for arrays the
element validator recurses on a truthy `items` property
(`jsonSchema['items'] ? createZodFieldFromJsonSchema(jsonSchema['items']) :
z.any()`); anything unrecognized becomes `z.any()`.  Note that `required`
and `default` keywords are ignored.  The `items` lookup is fused into the
mutually recursive `itemFieldSearch` so the recursion is structural. -/
def createZodFieldFromJsonSchema : Json → ZodField
  | .obj fields =>
      match lookupEntry fields "type" with
      | some (.str t) =>
          if t = "string" then .zstring
          else if t = "number" then .znumber
          else if t = "integer" then .zint
          else if t = "boolean" then .zboolean
          else if t = "array" then .zarray (itemFieldSearch fields)
          else .zany
      | _ => .zany
  | _ => .zany

/-- Element validator of an array schema: the first-match lookup of the
`items` property with the recursive conversion of a truthy value inlined
(absent or falsy `items` means `z.any()` elements). -/
def itemFieldSearch : List (String × Json) → ZodField
  | [] => .zany
  | (k, v) :: rest =>
      if k = "items" then
        (if truthy v then createZodFieldFromJsonSchema v else .zany)
      else itemFieldSearch rest

end

/-- Model of `Object.entries` on a `Json` value: objects list their fields,
arrays and strings list index-keyed entries, primitives have none. -/
def jsEntries : Json → List (String × Json)
  | .obj fields => fields
  | .arr xs => xs.enum.map (fun p => (toString p.1, p.2))
  | .str s => s.data.enum.map (fun p => (toString p.1, Json.str (String.mk [p.2])))
  | _ => []

/-- Embedding of `createZodSchemaFromJsonSchema` (`src/dynamicToolHandler.ts`
lines 75–86, and the identical `createZodSchemaFromJsonSchemaManual` in
`jsonSchemaValidator.ts`): when the schema is object-typed with truthy
`properties`, convert each declared property; otherwise the shape is empty.
The result is the field shape passed to `z.object`. -/
def createZodSchemaFromJsonSchema (s : Json) : List (String × ZodField) :=
  match getField s "type", getField s "properties" with
  | some (.str t), some props =>
      if t = "object" && truthy props then
        (jsEntries props).map (fun p => (p.1, createZodFieldFromJsonSchema p.2))
      else []
  | _, _ => []

/-- Validation issue as collected by zod: a path (object keys and array
indices rendered as strings) and a message. -/
structure ZodIssue where
  path : List String
  message : String
deriving DecidableEq, Repr

/-- Name of a received value in zod's `invalid_type` messages. -/
def receivedName : Json → String
  | .null => "null"
  | .bool _ => "boolean"
  | .num _ => "number"
  | .str _ => "string"
  | .arr _ => "array"
  | .obj _ => "object"

/-- Model of zod parsing for one field validator: `none` is an absent
(`undefined`) value.  `z.any()` accepts everything including absence; the
typed validators reject absence with `Required` and wrong runtime types
with an `invalid_type` message; `z.number().int()` additionally rejects
non-integral numbers; `z.array` validates every element, collecting all
issues with index path segments. -/
def validateZodField : ZodField → List String → Option Json → List ZodIssue
  | .zany => fun _ _ => []
  | .zstring => fun path v =>
      match v with
      | none => [⟨path, "Required"⟩]
      | some (.str _) => []
      | some w => [⟨path, "Expected string, received " ++ receivedName w⟩]
  | .znumber => fun path v =>
      match v with
      | none => [⟨path, "Required"⟩]
      | some (.num _) => []
      | some w => [⟨path, "Expected number, received " ++ receivedName w⟩]
  | .zint => fun path v =>
      match v with
      | none => [⟨path, "Required"⟩]
      | some (.num q) =>
          if q.den = 1 then [] else [⟨path, "Expected integer, received float"⟩]
      | some w => [⟨path, "Expected number, received " ++ receivedName w⟩]
  | .zboolean => fun path v =>
      match v with
      | none => [⟨path, "Required"⟩]
      | some (.bool _) => []
      | some w => [⟨path, "Expected boolean, received " ++ receivedName w⟩]
  | .zarray item =>
      let itemVal := validateZodField item
      fun path v =>
        match v with
        | none => [⟨path, "Required"⟩]
        | some (.arr xs) =>
            (xs.enum.map
              (fun p => itemVal (path ++ [toString p.1]) (some p.2))).flatten
        | some w => [⟨path, "Expected array, received " ++ receivedName w⟩]

/-- Model of `z.object(shape).parse(params)` issue collection: every field of
the shape is validated against the (possibly absent) value under its key;
unknown keys are stripped without error.  The parse succeeds iff the
collected issue list is empty. -/
def zodObjectParse (shape : List (String × ZodField))
    (params : List (String × Json)) : List ZodIssue :=
  (shape.map (fun p => validateZodField p.2 [p.1] (lookupEntry params p.1))).flatten

/-- Validated output of a successful `z.object(shape).parse(params)`: the
entries of the shape that carry a defined value (absent keys stay absent,
unknown keys are stripped; the manual conversion has no transforms or
defaults, so values pass through unchanged). -/
def zodObjectOutput (shape : List (String × ZodField))
    (params : List (String × Json)) : List (String × Json) :=
  shape.filterMap (fun p => (lookupEntry params p.1).map (fun v => (p.1, v)))

/-- JavaScript `Array.prototype.join(sep)`. -/
def joinSep (sep : String) : List String → String
  | [] => ""
  | [x] => x
  | x :: rest => x ++ sep ++ joinSep sep rest

/-- Formatting of one zod issue in the handler's validation-error message:
`e.path.join('.') + ': ' + e.message`. -/
def formatZodIssue (iss : ZodIssue) : String :=
  joinSep "." iss.path ++ ": " ++ iss.message

/-- Durable tool definition (`SavedToolConfig` in `src/types.ts`).  The
inert `pagination_config` / `idempotency` fields are carried verbatim. -/
structure SavedToolConfig where
  name : String
  description : String
  graphql_query : String
  parameter_schema : Json
  pagination_config : Option Json := none
  idempotency : Option Json := none
  «variables» : List String

/-- Observable outcome of one dynamic tool invocation: the GraphQL requests
issued (query text and variables object, in order), the `isError` flag of
the returned result, and the text of a validation-error result.  On the
success path the returned text is the serialized endpoint response, which is
external to this model, so `text` is `none` there. -/
structure DynOutcome where
  calls : List (String × List (String × Json))
  isError : Bool
  text : Option String

/-- Embedding of `createDynamicToolHandler` (`src/dynamicToolHandler.ts`
lines 5–58) applied to one invocation: build the zod validator from the
tool's `parameter_schema`, parse the params, and either report a
`ZodError`-derived validation error (without contacting the endpoint) or
issue the GraphQL request with the extracted variables. -/
def createDynamicToolHandler (cfg : SavedToolConfig)
    (params : List (String × Json)) : DynOutcome :=
  let shape := createZodSchemaFromJsonSchema cfg.parameter_schema
  match zodObjectParse shape params with
  | [] =>
      let validatedParams := zodObjectOutput shape params
      { calls := [(cfg.graphql_query, extractVariables cfg.graphql_query validatedParams)],
        isError := false,
        text := none }
  | iss :: rest =>
      { calls := [],
        isError := true,
        text := some ("Parameter validation error in tool '" ++ cfg.name ++ "': "
          ++ joinSep ", " ((iss :: rest).map formatZodIssue)) }

/-- Structured tool result: the text content and the `isError` flag (absent
`isError` on success is modelled as `false`). -/
structure ToolResult where
  text : String
  isError : Bool

/-- Success result shape. -/
def okResult (t : String) : ToolResult := ⟨t, false⟩

/-- Error result shape. -/
def errResult (t : String) : ToolResult := ⟨t, true⟩

/-- Modelled from the spec: `withErrorHandling` lives in `src/responses.ts`,
which is not in the source tree.  Per §7 every failure is returned as a
structured `{content, isError: true}` result whose text names the operation
and the underlying error message (the save tests expect the prefix
`Error saving tool` followed by the cause). -/
def wrapError (operation msg : String) : String :=
  "Error " ++ operation ++ ": " ++ msg

/-- Shared mutable state of the server process: the in-memory registry of
dynamically registered tool names (`registeredTools`) and the persisted
store, one record per tool name (`data/tools/<name>.json`). -/
structure SysState where
  registry : List String
  store : List (String × SavedToolConfig)

/-- Input of the save use case (`SaveQueryToolParams`). -/
structure SaveParams where
  tool_name : String
  description : String
  graphql_query : String
  parameter_schema : Json
  overwrite : Option Bool := none
  pagination_config : Option Json := none
  idempotency : Option Json := none

/-- Embedding of `validateJsonSchema` (`src/jsonSchemaValidator.ts`): `null`
and non-objects are rejected up front; otherwise the schema is handed to
`ajv.compile`, an external collaborator modelled by the predicate `ajvOk`
(compilation succeeds iff `ajvOk s`). -/
def validateJsonSchema (ajvOk : Json → Bool) (s : Json) : Bool :=
  match s with
  | .null => false
  | .bool _ => false
  | .num _ => false
  | .str _ => false
  | .arr _ => ajvOk (.arr (match s with | .arr xs => xs | _ => []))
  | .obj _ => ajvOk s

/-- Tool definition assembled by the save handler from its params and the
extracted variables. -/
def mkSavedToolConfig (p : SaveParams) : SavedToolConfig :=
  { name := p.tool_name,
    description := p.description,
    graphql_query := p.graphql_query,
    parameter_schema := p.parameter_schema,
    pagination_config := p.pagination_config,
    idempotency := p.idempotency,
    «variables» := extractGraphQLVariables p.graphql_query }

/-- Embedding of the save handler (`src/tools/saveQuery.ts` lines 82–128)
wrapped in `withErrorHandling`.  External failure modes are explicit:
`persistFailure` is the message of a `saveToolToFile` write failure (already
wrapped by storage.ts in its `Failed to save tool ... to file` format) and
`registerFailure` the message thrown by the host layer on
`server.registerTool` / `RegisteredTool.update`.  Control flow follows the
source: duplicate-name guard, schema guard, variable extraction, persist,
then register (create) or update in place (overwrite). -/
def saveQueryHandler (ajvOk : Json → Bool)
    (persistFailure registerFailure : Option String)
    (st : SysState) (p : SaveParams) : ToolResult × SysState :=
  let operation := "saving tool '" ++ p.tool_name ++ "'"
  let toolExists := st.registry.contains p.tool_name
  if toolExists && !(p.overwrite.getD false) then
    (errResult (wrapError operation ("Tool with name '" ++ p.tool_name
       ++ "' already exists. Set overwrite=true to update it.")), st)
  else if !(validateJsonSchema ajvOk p.parameter_schema) then
    (errResult (wrapError operation
       "Invalid parameter_schema: must be a valid JSON Schema object"), st)
  else
    let toolConfig := mkSavedToolConfig p
    match persistFailure with
    | some cause =>
        (errResult (wrapError operation ("Failed to save tool '" ++ p.tool_name
           ++ "' to file: " ++ cause)), st)
    | none =>
        let st1 : SysState := { st with store := setEntry st.store p.tool_name toolConfig }
        if !toolExists then
          match registerFailure with
          | some cause => (errResult (wrapError operation cause), st1)
          | none =>
              (okResult ("Successfully created tool '" ++ p.tool_name ++ "' with "
                 ++ toString toolConfig.«variables».length ++ " variables: "
                 ++ joinSep ", " toolConfig.«variables»),
               { st1 with registry := st1.registry ++ [p.tool_name] })
        else
          match registerFailure with
          | some cause => (errResult (wrapError operation cause), st1)
          | none =>
              (okResult ("Successfully updated tool '" ++ p.tool_name ++ "' with "
                 ++ toString toolConfig.«variables».length ++ " variables: "
                 ++ joinSep ", " toolConfig.«variables»), st1)

/-- Side effects attempted by the delete use case, in order. -/
inductive DeleteEvent where
  | hostRemove (name : String)
  | fileDelete (name : String)
deriving DecidableEq, Repr

/-- Modelled from the spec: the fixed deny-list of core tool names
(`src/tools/deleteSavedQuery.ts` is not in the source tree).  §4.4 protects
"the fixed core tool names"; the README and `server.ts` list these five, and
the delete tests exercise `execute_graphql_query`, `save_query` and
`delete_saved_query`. -/
def CORE_TOOLS : List String :=
  ["execute_graphql_query", "save_query", "delete_saved_query",
   "list_saved_queries", "show_saved_query"]

/-- Modelled from the spec: the delete handler
(`src/tools/deleteSavedQuery.ts` is not in the source tree), following §4.4
and the test suite: deny-list check before any mutation, then not-found
check, then host-layer removal, registry removal, and file deletion, in that
order; a host-layer failure leaves everything intact, a file-deletion
failure is reported after the registry has already dropped the entry.
`removeFailure` / `fileFailure` are the external failure messages; the third
component lists the mutation attempts actually made. -/
def deleteSavedQueryHandler (removeFailure fileFailure : Option String)
    (st : SysState) (toolName : String) :
    ToolResult × SysState × List DeleteEvent :=
  let operation := "deleting tool '" ++ toolName ++ "'"
  if CORE_TOOLS.contains toolName then
    (errResult (wrapError operation ("Cannot delete core tool '" ++ toolName
       ++ "'. Core tools cannot be deleted.")), st, [])
  else if !(st.registry.contains toolName) then
    (errResult (wrapError operation ("Saved query '" ++ toolName
       ++ "' not found")), st, [])
  else
    match removeFailure with
    | some cause =>
        (errResult (wrapError operation cause), st, [.hostRemove toolName])
    | none =>
        let st1 : SysState := { st with registry := st.registry.filter (fun n => n ≠ toolName) }
        match fileFailure with
        | some cause =>
            (errResult (wrapError operation cause), st1,
             [.hostRemove toolName, .fileDelete toolName])
        | none =>
            (okResult ("Successfully deleted saved query '" ++ toolName ++ "'"),
             { st1 with store := st1.store.filter (fun e => e.1 ≠ toolName) },
             [.hostRemove toolName, .fileDelete toolName])

/-- Helper for `file.replace('.json', '')`: remove the first occurrence of
the pattern from the character list. -/
def replaceFirstAux (pat : List Char) : List Char → List Char
  | [] => []
  | c :: rest =>
      if pat.isPrefixOf (c :: rest) then (c :: rest).drop pat.length
      else c :: replaceFirstAux pat rest

/-- JavaScript `s.replace(pat, '')` with a plain-string pattern: only the
first occurrence is removed. -/
def replaceFirst (s pat : String) : String :=
  String.mk (replaceFirstAux pat.data s.data)

/-- JavaScript `s.endsWith(suffix)`. -/
def strEndsWith (s suffix : String) : Bool :=
  suffix.data.isSuffixOf s.data

/-- The `typeof` of a possibly absent property (`typeof undefined` is
`"undefined"`). -/
def propTypeof (c : Json) (k : String) : String :=
  match getField c k with
  | none => "undefined"
  | some v => jsTypeof v

/-- Embedding of `isValidToolConfig` (`src/storage.ts`): the JS `typeof`
checks are kept exactly, so `parameter_schema` only needs `typeof`
`'object'` — which `null` and arrays also satisfy. -/
def isValidToolConfig (c : Json) : Bool :=
  jsTypeof c == "object" &&
  !(c.isNull) &&
  propTypeof c "name" == "string" &&
  propTypeof c "description" == "string" &&
  propTypeof c "graphql_query" == "string" &&
  propTypeof c "parameter_schema" == "object" &&
  (match getField c "variables" with
   | some (.arr vs) => vs.all (fun v => jsTypeof v == "string")
   | _ => false)

/-- Structural validity as the claim states it, for comparison with the
source's `isValidToolConfig`: a non-null JSON object with string `name`,
`description` and `graphql_query`, an object `parameter_schema`, and an
array `variables` whose every element is a string. -/
def specStructurallyValid (c : Json) : Bool :=
  match c with
  | .obj _ =>
      (match getField c "name" with | some (.str _) => true | _ => false) &&
      (match getField c "description" with | some (.str _) => true | _ => false) &&
      (match getField c "graphql_query" with | some (.str _) => true | _ => false) &&
      (match getField c "parameter_schema" with | some (.obj _) => true | _ => false) &&
      (match getField c "variables" with
       | some (.arr vs) => vs.all (fun v => match v with | .str _ => true | _ => false)
       | _ => false)
  | _ => false

/-- Embedding of `loadToolFromFile` (`src/storage.ts`): the tools directory
is modelled as a listing of `(fileName, parsed JSON content)` pairs (the
`JSON.parse` step is external; a parse failure is one more way for the load
to throw and is outside this model).  A missing file yields `null`
(`Except.ok none`), an invalid record throws the wrapped error. -/
def loadToolFromFile (files : List (String × Json)) (toolName : String) :
    Except String (Option Json) :=
  match lookupEntry files (toolName ++ ".json") with
  | none => .ok none
  | some content =>
      if isValidToolConfig content then .ok (some content)
      else .error ("Failed to load tool '" ++ toolName
        ++ "' from file: Invalid tool configuration in file: "
        ++ toolName ++ ".json")

/-- Loop body of `loadAllTools`: iterate the directory listing, deriving
each tool name via `file.replace('.json', '')`, loading it, and recording
valid configs; any load error aborts the whole enumeration. -/
def loadAllLoop (files : List (String × Json))
    (acc : List (String × Json)) :
    List (String × Json) → Except String (List (String × Json))
  | [] => .ok acc
  | (fname, _) :: rest =>
      if strEndsWith fname ".json" then
        match loadToolFromFile files (replaceFirst fname ".json") with
        | .error e => .error e
        | .ok none => loadAllLoop files acc rest
        | .ok (some cfg) =>
            loadAllLoop files (setEntry acc (replaceFirst fname ".json") cfg) rest
      else loadAllLoop files acc rest

/-- Embedding of `loadAllTools` (`src/storage.ts`): a missing tools
directory (`dir = none`) yields an empty map; otherwise every `.json` file
is loaded, and the first structural failure aborts the whole call wrapped
in the enumeration error. -/
def loadAllTools (dir : Option (List (String × Json))) :
    Except String (List (String × Json)) :=
  match dir with
  | none => .ok []
  | some files =>
      match loadAllLoop files [] files with
      | .error e => .error ("Failed to load tools from directory: " ++ e)
      | .ok m => .ok m

/-- Substring relation on strings, used to state "the message contains ...". -/
def SubstringOf (needle hay : String) : Prop :=
  ∃ pre post, hay = pre ++ needle ++ post

/-- Schema used by claim C2's failing input:
`{type: 'object', properties: {a: {type: 'string'}}, required: []}`. -/
def schemaOptionalOnly : Json :=
  .obj [("type", .str "object"),
        ("properties", .obj [("a", .obj [("type", .str "string")])]),
        ("required", .arr [])]

/-- Schema of claim C3's end-to-end scenario:
`{type: 'object', properties: {limit: {type: 'integer', default: 10}}, required: []}`. -/
def schemaDefaultLimit : Json :=
  .obj [("type", .str "object"),
        ("properties", .obj [("limit", .obj [("type", .str "integer"), ("default", .num 10)])]),
        ("required", .arr [])]

/-- Saved tool of claim C3's end-to-end scenario. -/
def cfgDefaultLimit : SavedToolConfig :=
  { name := "list_items",
    description := "List items",
    graphql_query := "query($limit: Int) \x7b items(limit: $limit) \x7d",
    parameter_schema := schemaDefaultLimit,
    «variables» := ["limit"] }

/-- Saved tool used by the C4 witness: `get_user` with a required string
`id`, as in the spec's end-to-end scenario. -/
def cfgGetUser : SavedToolConfig :=
  { name := "get_user",
    description := "Get user by ID",
    graphql_query := "query GetUser($id: ID!) \x7b user(id: $id) \x7b name \x7d \x7d",
    parameter_schema := .obj [("type", .str "object"),
      ("properties", .obj [("id", .obj [("type", .str "string")])]),
      ("required", .arr [.str "id"])],
    «variables» := ["id"] }

/-- Stored record used by the C9 counterexample: `parameter_schema` is JSON
`null`, which the claim's structural-validity wording rejects but the
source's `typeof` check accepts. -/
def cfgNullSchema : Json :=
  .obj [("name", .str "t"), ("description", .str "d"),
        ("graphql_query", .str "q"), ("parameter_schema", .null),
        ("variables", .arr [])]

/-- An `ajv.compile` model that accepts every schema, for concrete witnesses. -/
def ajvAll : Json → Bool := fun _ => true

/-- Save-call input used by witnesses: the spec's `get_user` example. -/
def saveParamsGetUser : SaveParams :=
  { tool_name := "get_user",
    description := "Get user by ID",
    graphql_query := "query GetUser($id: ID!) \x7b user(id: $id) \x7b name \x7d \x7d",
    parameter_schema := Json.obj [("type", Json.str "object"),
      ("properties", Json.obj [("id", Json.obj [("type", Json.str "string")])]),
      ("required", Json.arr [Json.str "id"])] }

/-- Fresh server state: nothing registered, nothing stored. -/
def emptyState : SysState := { registry := [], store := [] }

/-- Server state in which `get_user` is already registered. -/
def stateWithGetUser : SysState := { registry := ["get_user"], store := [] }

/-- Structurally invalid stored record used by the C9 witness: only a
`name` field, so `isValidToolConfig` rejects it. -/
def badToolRecord : Json := Json.obj [("name", Json.str "bad")]

/-- Characterization of membership in the accumulator-passing dedup. -/
theorem mem_dedupFirstAux (a : String) (seen l : List String) :
    a ∈ dedupFirstAux seen l ↔ a ∈ l ∧ a ∉ seen := by
  induction l generalizing seen with
  | nil => simp [dedupFirstAux]
  | cons x xs ih =>
      rw [dedupFirstAux]
      by_cases hx : seen.contains x
      · rw [if_pos hx]
        rw [ih]
        constructor
        · rintro ⟨h1, h2⟩
          exact ⟨List.mem_cons_of_mem _ h1, h2⟩
        · rintro ⟨h1, h2⟩
          rcases List.mem_cons.mp h1 with h | h
          · subst h
            exact absurd (by simpa using hx) h2
          · exact ⟨h, h2⟩
      · rw [if_neg hx]
        by_cases hax : a = x
        · subst hax
          constructor
          · intro _
            exact ⟨List.mem_cons_self _ _, by simpa using hx⟩
          · intro _
            exact List.mem_cons_self _ _
        · simp only [List.mem_cons, hax, false_or, ih, List.mem_cons]

/-- Membership is preserved by first-occurrence deduplication. -/
theorem mem_dedupFirst (a : String) (l : List String) :
    a ∈ dedupFirst l ↔ a ∈ l := by
  rw [dedupFirst, mem_dedupFirstAux]
  simp

/-- First-occurrence deduplication produces a duplicate-free list. -/
theorem nodup_dedupFirstAux (seen l : List String) :
    (dedupFirstAux seen l).Nodup := by
  induction l generalizing seen with
  | nil => simp [dedupFirstAux]
  | cons x xs ih =>
      rw [dedupFirstAux]
      by_cases hx : seen.contains x
      · rw [if_pos hx]
        exact ih seen
      · rw [if_neg hx]
        refine List.Nodup.cons ?_ (ih (x :: seen))
        intro hmem
        have := (mem_dedupFirstAux x (x :: seen) xs).mp hmem
        exact this.2 (List.mem_cons_self _ _)

/-- The deduplicated extraction result has no duplicates. -/
theorem nodup_dedupFirst (l : List String) : (dedupFirst l).Nodup :=
  nodup_dedupFirstAux [] l

/-- A duplicate-free list disjoint from the seen set is a fixed point. -/
theorem dedupFirstAux_eq_self {l : List String} (seen : List String)
    (h : l.Nodup) (hd : ∀ a ∈ l, a ∉ seen) : dedupFirstAux seen l = l := by
  induction l generalizing seen with
  | nil => simp [dedupFirstAux]
  | cons x xs ih =>
      rw [dedupFirstAux]
      have hx : x ∉ seen := hd x (List.mem_cons_self x xs)
      rw [List.nodup_cons] at h
      rw [if_neg (by simpa using hx)]
      congr 1
      apply ih (x :: seen) h.2
      intro a ha
      simp only [List.mem_cons]
      rintro (rfl | hs)
      · exact h.1 ha
      · exact hd a (List.mem_cons_of_mem _ ha) hs

/-- A duplicate-free list is a fixed point of `dedupFirst`. -/
theorem dedupFirst_eq_self_of_nodup {l : List String} (h : l.Nodup) :
    dedupFirst l = l :=
  dedupFirstAux_eq_self [] h (by simp)

/-- The deduplicated list is ordered by first occurrence in the raw list. -/
theorem pairwise_indexOf_dedupFirstAux (seen l : List String) :
    (dedupFirstAux seen l).Pairwise (fun a b => l.indexOf a < l.indexOf b) := by
  induction l generalizing seen with
  | nil => simp [dedupFirstAux]
  | cons x xs ih =>
      rw [dedupFirstAux]
      by_cases hx : seen.contains x
      · rw [if_pos hx]
        refine List.Pairwise.imp_of_mem ?_ (ih seen)
        intro a b haf hbf hab
        have ha2 := (mem_dedupFirstAux a seen xs).mp haf
        have hb2 := (mem_dedupFirstAux b seen xs).mp hbf
        have hax : a ≠ x := by
          rintro rfl
          exact ha2.2 (by simpa using hx)
        have hbx : b ≠ x := by
          rintro rfl
          exact hb2.2 (by simpa using hx)
        rw [List.indexOf_cons_ne _ (by simpa using (Ne.symm hax)),
            List.indexOf_cons_ne _ (by simpa using (Ne.symm hbx))]
        omega
      · rw [if_neg hx]
        refine List.Pairwise.cons ?_ ?_
        · intro b hb
          have hb2 := (mem_dedupFirstAux b (x :: seen) xs).mp hb
          have hbx : b ≠ x := by
            rintro rfl
            exact hb2.2 (List.mem_cons_self _ _)
          rw [List.indexOf_cons_self, List.indexOf_cons_ne _ (by simpa using (Ne.symm hbx))]
          omega
        · refine List.Pairwise.imp_of_mem ?_ (ih (x :: seen))
          intro a b haf hbf hab
          have ha2 := (mem_dedupFirstAux a (x :: seen) xs).mp haf
          have hb2 := (mem_dedupFirstAux b (x :: seen) xs).mp hbf
          have hax : a ≠ x := by
            rintro rfl
            exact ha2.2 (List.mem_cons_self _ _)
          have hbx : b ≠ x := by
            rintro rfl
            exact hb2.2 (List.mem_cons_self _ _)
          rw [List.indexOf_cons_ne _ (by simpa using (Ne.symm hax)),
              List.indexOf_cons_ne _ (by simpa using (Ne.symm hbx))]
          omega

/-- The deduplicated list is ordered by first occurrence. -/
theorem pairwise_indexOf_dedupFirst (l : List String) :
    (dedupFirst l).Pairwise (fun a b => l.indexOf a < l.indexOf b) :=
  pairwise_indexOf_dedupFirstAux [] l

/-- C8: for every GraphQL query string, `extractGraphQLVariables` returns
the distinct `$name` token names in first-occurrence order — the result is
duplicate-free, has exactly the names produced by the raw regex scan, is
ordered by each name's first occurrence among the raw matches, and is a
fixed point of deduplication (re-extraction adds or reorders nothing); on
the claim's example it yields `["a", "b"]`. -/
theorem extractGraphQLVariables_dedup_first_occurrence :
    (∀ q : String,
      (extractGraphQLVariables q).Nodup ∧
      (∀ s : String, s ∈ extractGraphQLVariables q ↔ s ∈ scanVars q.data) ∧
      (extractGraphQLVariables q).Pairwise
        (fun a b => (scanVars q.data).indexOf a < (scanVars q.data).indexOf b) ∧
      dedupFirst (extractGraphQLVariables q) = extractGraphQLVariables q) ∧
    extractGraphQLVariables "query($a: ID, $b: Int, $a: ID) \x7b x(a:$a,b:$b) \x7d"
      = ["a", "b"] := by
  constructor
  · intro q
    refine ⟨nodup_dedupFirst _, fun s => mem_dedupFirst s _,
      pairwise_indexOf_dedupFirst _, dedupFirst_eq_self_of_nodup (nodup_dedupFirst _)⟩
  · decide

/-- Lookup after a JS object assignment: the assigned key reads the new
value, every other key is untouched. -/
theorem lookupEntry_setEntry {α : Type} (l : List (String × α)) (k k2 : String)
    (v : α) :
    lookupEntry (setEntry l k v) k2 =
      if k = k2 then some v else lookupEntry l k2 := by
  induction l with
  | nil =>
      by_cases h : k = k2 <;> simp [setEntry, lookupEntry, h]
  | cons e rest ih =>
      obtain ⟨k0, v0⟩ := e
      by_cases h0 : k0 = k
      · subst h0
        by_cases h2 : k0 = k2 <;> simp [setEntry, lookupEntry, h2]
      · by_cases h2 : k0 = k2
        · subst h2
          simp [setEntry, lookupEntry, h0, Ne.symm h0]
        · simp [setEntry, lookupEntry, h0, h2, ih]

/-- Lookup in the variables object built by folding `applyVar` over a list
of matched names: a key is present exactly when it was matched and the
params hold a defined value for it, and then it maps to that value. -/
theorem lookupEntry_foldl_applyVar (params : List (String × Json))
    (names : List String) (acc : List (String × Json)) (k : String) :
    lookupEntry (names.foldl (applyVar params) acc) k =
      if k ∈ names ∧ (lookupEntry params k).isSome then lookupEntry params k
      else lookupEntry acc k := by
  induction names generalizing acc with
  | nil => simp
  | cons n rest ih =>
      rw [List.foldl_cons, ih]
      by_cases hk : k ∈ rest ∧ (lookupEntry params k).isSome
      · rw [if_pos hk, if_pos ⟨List.mem_cons_of_mem _ hk.1, hk.2⟩]
      · rw [if_neg hk]
        by_cases hkn : k = n
        · subst hkn
          rcases hp : lookupEntry params k with _ | v
          · rw [if_neg (by simp [hp])]
            simp [applyVar, hp]
          · rw [if_pos ⟨List.mem_cons_self _ _, by simp [hp]⟩]
            simp [applyVar, hp, lookupEntry_setEntry]
        · have hnot : ¬ (k ∈ n :: rest ∧ (lookupEntry params k).isSome) := by
            rintro ⟨hm, hs⟩
            rcases List.mem_cons.mp hm with h | h
            · exact hkn h
            · exact hk ⟨h, hs⟩
          rw [if_neg hnot]
          rcases hp : lookupEntry params n with _ | v
          · simp [applyVar, hp]
          · simp [applyVar, hp, lookupEntry_setEntry, hkn, Ne.symm hkn]

/-- Characterization of the invocation-time variables object: a name reads
its value from the validated params exactly when it occurs as a `$name`
token of the query and the params hold a defined value for it. -/
theorem lookupEntry_extractVariables (q : String)
    (params : List (String × Json)) (k : String) :
    lookupEntry (extractVariables q params) k =
      if k ∈ scanVars q.data ∧ (lookupEntry params k).isSome then
        lookupEntry params k
      else none := by
  rw [extractVariables, lookupEntry_foldl_applyVar]
  rfl

/-- C10: the save-time variable extractor and the invocation-time variable
mapper agree — for every query string and parameter record, the variables
object built at invocation time (by rescanning the query) holds a defined
entry under a name exactly when that name is in `extractGraphQLVariables`
of the query and the parameter record holds a defined value for it, so
rescanning the query at each call is observably equivalent to filtering the
variables list cached at save time. -/
theorem extractVariables_agrees_with_cached_list (q : String)
    (params : List (String × Json)) (k : String) :
    (lookupEntry (extractVariables q params) k).isSome =
      (decide (k ∈ extractGraphQLVariables q) && (lookupEntry params k).isSome) := by
  rw [lookupEntry_extractVariables]
  by_cases hm : k ∈ scanVars q.data
  · have hm2 : k ∈ extractGraphQLVariables q := (mem_dedupFirst k _).mpr hm
    by_cases hs : (lookupEntry params k).isSome
    · rw [if_pos ⟨hm, hs⟩]
      simp [hm2, hs]
    · rw [if_neg (by simp [hs])]
      simp only [Bool.not_eq_true] at hs
      simp [hm2, hs]
  · have hm2 : k ∉ extractGraphQLVariables q := fun h => hm ((mem_dedupFirst k _).mp h)
    rw [if_neg (by simp [hm])]
    simp [hm2]

/-- C5: for every saved tool whose cached `variables` list is the save-time
extraction of its query (the data-model invariant maintained by the save
use case), and every validated parameter record, the variables object sent
to the GraphQL endpoint maps exactly those names of the cached list that
have a defined parameter value to that value; every other name reads as
absent — never as `null`. -/
theorem extractVariables_matches_cached (cfg : SavedToolConfig)
    (params : List (String × Json)) (k : String)
    (hv : cfg.«variables» = extractGraphQLVariables cfg.graphql_query) :
    lookupEntry (extractVariables cfg.graphql_query params) k =
      if k ∈ cfg.«variables» ∧ (lookupEntry params k).isSome then
        lookupEntry params k
      else none := by
  rw [lookupEntry_extractVariables, hv]
  by_cases hm : k ∈ scanVars cfg.graphql_query.data
  · have hm2 : k ∈ extractGraphQLVariables cfg.graphql_query :=
      (mem_dedupFirst k _).mpr hm
    by_cases hs : (lookupEntry params k).isSome
    · rw [if_pos ⟨hm, hs⟩, if_pos ⟨hm2, hs⟩]
    · rw [if_neg (by simp [hs]), if_neg (by simp [hs])]
  · have hm2 : k ∉ extractGraphQLVariables cfg.graphql_query :=
      fun h => hm ((mem_dedupFirst k _).mp h)
    rw [if_neg (by simp [hm]), if_neg (by simp [hm2])]

/-- Witness for C5: the spec's `get_user` tool invoked with a defined `id`
and an extraneous parameter; the sent variables hold exactly `id`. -/
theorem extractVariables_matches_cached_witness :
    cfgGetUser.«variables» = extractGraphQLVariables cfgGetUser.graphql_query ∧
    lookupEntry (extractVariables cfgGetUser.graphql_query
        [("id", .str "42"), ("extra", .num 1)]) "id" =
      if "id" ∈ cfgGetUser.«variables» ∧
          (lookupEntry [("id", Json.str "42"), ("extra", Json.num 1)] "id").isSome then
        lookupEntry [("id", Json.str "42"), ("extra", Json.num 1)] "id"
      else none := by
  constructor
  · decide
  · exact extractVariables_matches_cached cfgGetUser
      [("id", .str "42"), ("extra", .num 1)] "id" (by decide)

/-- String concatenation is associative. -/
theorem strAppend_assoc (a b c : String) : a ++ b ++ c = a ++ (b ++ c) := by
  apply String.ext
  show (a ++ b ++ c).data = (a ++ (b ++ c)).data
  simp [List.append_assoc]

/-- A substring of a string is a substring of any left extension of it. -/
theorem substringOf_append_left (n s t : String) (h : SubstringOf n t) :
    SubstringOf n (s ++ t) := by
  obtain ⟨pre, post, hpre⟩ := h
  refine ⟨s ++ pre, post, ?_⟩
  rw [hpre]
  apply String.ext
  show (s ++ (pre ++ n ++ post)).data = (s ++ pre ++ n ++ post).data
  simp [List.append_assoc]

/-- Every element of a joined list is a substring of the join. -/
theorem substringOf_joinSep (sep : String) (l : List String) (a : String)
    (h : a ∈ l) : SubstringOf a (joinSep sep l) := by
  induction l with
  | nil => simp at h
  | cons x rest ih =>
      rcases List.mem_cons.mp h with rfl | hr
      · cases rest with
        | nil =>
            refine ⟨"", "", ?_⟩
            apply String.ext
            simp [joinSep]
        | cons y ys =>
            refine ⟨"", sep ++ joinSep sep (y :: ys), ?_⟩
            apply String.ext
            show (joinSep sep (a :: y :: ys)).data = _
            simp [joinSep, List.append_assoc]
      · cases rest with
        | nil => simp at hr
        | cons y ys =>
            have := ih hr
            show SubstringOf a (joinSep sep (x :: y :: ys))
            have hx : joinSep sep (x :: y :: ys) = (x ++ sep) ++ joinSep sep (y :: ys) := by
              apply String.ext
              simp [joinSep, List.append_assoc]
            rw [hx]
            exact substringOf_append_left _ _ _ this

/-- C4: for every saved tool and every invocation input that fails the
tool's runtime parameter validation, the dynamic invocation handler returns
a structured tool-error result (`isError` true) whose message contains
every failing field path with its reason, and no GraphQL request is issued
during that invocation. -/
theorem validation_failure_is_structured_and_local (cfg : SavedToolConfig)
    (params : List (String × Json))
    (h : zodObjectParse (createZodSchemaFromJsonSchema cfg.parameter_schema) params ≠ []) :
    (createDynamicToolHandler cfg params).calls = [] ∧
    (createDynamicToolHandler cfg params).isError = true ∧
    ∀ iss ∈ zodObjectParse (createZodSchemaFromJsonSchema cfg.parameter_schema) params,
      ∃ t, (createDynamicToolHandler cfg params).text = some t ∧
        SubstringOf (formatZodIssue iss) t := by
  rcases hz : zodObjectParse (createZodSchemaFromJsonSchema cfg.parameter_schema) params
    with _ | ⟨i, rest⟩
  · exact absurd hz h
  · refine ⟨?_, ?_, ?_⟩
    · simp [createDynamicToolHandler, hz]
    · simp [createDynamicToolHandler, hz]
    · intro iss hmem
      refine ⟨"Parameter validation error in tool '" ++ cfg.name ++ "': "
        ++ joinSep ", " ((i :: rest).map formatZodIssue), ?_, ?_⟩
      · simp [createDynamicToolHandler, hz]
      · apply substringOf_append_left
        apply substringOf_joinSep
        rw [← hz] at hmem
        rw [hz] at hmem
        exact List.mem_map_of_mem formatZodIssue hmem

/-- Witness for C4: the spec's `get_user` tool invoked with `{id: 42}` (a
number where a string is required) rejects without contacting the endpoint
and reports the failing path `id`. -/
theorem validation_failure_is_structured_and_local_witness :
    zodObjectParse (createZodSchemaFromJsonSchema cfgGetUser.parameter_schema)
        [("id", Json.num 42)] ≠ [] ∧
    ((createDynamicToolHandler cfgGetUser [("id", Json.num 42)]).calls = [] ∧
     (createDynamicToolHandler cfgGetUser [("id", Json.num 42)]).isError = true ∧
     ∀ iss ∈ zodObjectParse (createZodSchemaFromJsonSchema cfgGetUser.parameter_schema)
         [("id", Json.num 42)],
       ∃ t, (createDynamicToolHandler cfgGetUser [("id", Json.num 42)]).text = some t ∧
         SubstringOf (formatZodIssue iss) t) :=
  ⟨by decide, validation_failure_is_structured_and_local cfgGetUser
    [("id", Json.num 42)] (by decide)⟩

/-- C2 (failing-input evaluation): the schema
`{type: 'object', properties: {a: {type: 'string'}}, required: []}` does
not list `a` as required, yet the converted validator rejects the empty
input with `a: Required` — the manual converter marks every recognized-type
property as required, contradicting the claim (and the repository's own
handler tests, which expect optional properties to accept absence). -/
theorem optional_property_rejected_by_converter :
    getField schemaOptionalOnly "required" = some (Json.arr []) ∧
    zodObjectParse (createZodSchemaFromJsonSchema schemaOptionalOnly) []
      = [⟨["a"], "Required"⟩] :=
  ⟨rfl, by decide⟩

/-- C3 (failing-input evaluation): the tool whose schema declares
`limit: {type: integer, default: 10}` with `required: []`, invoked with
`{}`, never calls the endpoint (so in particular not with
`{limit: 10}`) and instead returns a validation error demanding `limit` —
the converter never applies `default`, contradicting the claim, the spec's
end-to-end scenario, and the repository's own default-value tests. -/
theorem default_value_not_substituted :
    (createDynamicToolHandler cfgDefaultLimit []).calls = [] ∧
    (createDynamicToolHandler cfgDefaultLimit []).isError = true ∧
    (createDynamicToolHandler cfgDefaultLimit []).text
      = some "Parameter validation error in tool 'list_items': limit: Required" :=
  ⟨rfl, rfl, by decide⟩

/-- Data of a concatenation is the concatenation of the data. -/
theorem strData_append (s t : String) : (s ++ t).data = s.data ++ t.data := rfl

/-- C1: the save use case persists before registering — if the file write
fails, the result is an error and the whole state (registry included) is
unchanged, whatever the other failure modes; if the write succeeded and the
host-layer registration of a new tool then fails, an error is reported, the
registry is unchanged, but the persisted record remains in the store. -/
theorem save_persists_before_registering (ajvOk : Json → Bool)
    (cause cause2 : String) (registerFailure : Option String)
    (st : SysState) (p : SaveParams) :
    ((saveQueryHandler ajvOk (some cause) registerFailure st p).2 = st ∧
     (saveQueryHandler ajvOk (some cause) registerFailure st p).1.isError = true) ∧
    (st.registry.contains p.tool_name = false →
     validateJsonSchema ajvOk p.parameter_schema = true →
     ((saveQueryHandler ajvOk none (some cause2) st p).1.isError = true ∧
      (saveQueryHandler ajvOk none (some cause2) st p).2.registry = st.registry ∧
      lookupEntry (saveQueryHandler ajvOk none (some cause2) st p).2.store p.tool_name
        = some (mkSavedToolConfig p))) := by
  constructor
  · unfold saveQueryHandler
    split_ifs <;> simp [errResult] <;> split_ifs <;> simp
  · intro h1 h2
    unfold saveQueryHandler
    rw [h1, h2]
    simp [errResult, lookupEntry_setEntry]

/-- Witness for C1: creating `get_user` in a fresh state with a failing
host-layer registration reports an error while the record is persisted. -/
theorem save_persists_before_registering_witness :
    emptyState.registry.contains "get_user" = false ∧
    validateJsonSchema ajvAll saveParamsGetUser.parameter_schema = true ∧
    ((saveQueryHandler ajvAll none (some "registration refused") emptyState
        saveParamsGetUser).1.isError = true ∧
     (saveQueryHandler ajvAll none (some "registration refused") emptyState
        saveParamsGetUser).2.registry = emptyState.registry ∧
     lookupEntry (saveQueryHandler ajvAll none (some "registration refused") emptyState
        saveParamsGetUser).2.store "get_user"
       = some (mkSavedToolConfig saveParamsGetUser)) :=
  ⟨by decide, by decide,
   (save_persists_before_registering ajvAll "io" "registration refused" none
     emptyState saveParamsGetUser).2 (by decide) (by decide)⟩

/-- The duplicate-name error message contains the words `already exists`. -/
theorem substringOf_duplicate_message (n : String) :
    SubstringOf "already exists"
      (wrapError ("saving tool '" ++ n ++ "'")
        ("Tool with name '" ++ n
          ++ "' already exists. Set overwrite=true to update it.")) := by
  have hsplit : ("' already exists. Set overwrite=true to update it." : String)
      = "' " ++ "already exists" ++ ". Set overwrite=true to update it." := by
    decide
  rw [hsplit]
  refine ⟨"Error " ++ ("saving tool '" ++ n ++ "'") ++ ": "
    ++ ("Tool with name '" ++ n) ++ "' ",
    ". Set overwrite=true to update it.", ?_⟩
  apply String.ext
  simp [wrapError, strData_append, List.append_assoc]

/-- C6: saving a tool whose name is already registered, without the
overwrite flag, fails with an `already exists` error and leaves the whole
state — registry and store — unchanged, so a subsequent load by that name
still returns the original definition. -/
theorem save_duplicate_name_is_rejected (ajvOk : Json → Bool)
    (persistFailure registerFailure : Option String)
    (st : SysState) (p : SaveParams)
    (hex : st.registry.contains p.tool_name = true)
    (how : p.overwrite.getD false = false) :
    (saveQueryHandler ajvOk persistFailure registerFailure st p).1.isError = true ∧
    SubstringOf "already exists"
      (saveQueryHandler ajvOk persistFailure registerFailure st p).1.text ∧
    (saveQueryHandler ajvOk persistFailure registerFailure st p).2 = st := by
  unfold saveQueryHandler
  rw [hex, how]
  refine ⟨by simp [errResult], ?_, by simp⟩
  simpa [errResult] using substringOf_duplicate_message p.tool_name

/-- Witness for C6: re-saving `get_user` without overwrite in a state where
it is registered. -/
theorem save_duplicate_name_is_rejected_witness :
    stateWithGetUser.registry.contains "get_user" = true ∧
    saveParamsGetUser.overwrite.getD false = false ∧
    ((saveQueryHandler ajvAll none none stateWithGetUser saveParamsGetUser).1.isError = true ∧
     SubstringOf "already exists"
       (saveQueryHandler ajvAll none none stateWithGetUser saveParamsGetUser).1.text ∧
     (saveQueryHandler ajvAll none none stateWithGetUser saveParamsGetUser).2
       = stateWithGetUser) :=
  ⟨by decide, by decide,
   save_duplicate_name_is_rejected ajvAll none none stateWithGetUser saveParamsGetUser
     (by decide) (by decide)⟩

/-- The core-tool error message contains `Cannot delete core tool`. -/
theorem substringOf_core_tool_message (n : String) :
    SubstringOf "Cannot delete core tool"
      (wrapError ("deleting tool '" ++ n ++ "'")
        ("Cannot delete core tool '" ++ n ++ "'. Core tools cannot be deleted.")) := by
  have hsplit : ("Cannot delete core tool '" : String)
      = "Cannot delete core tool" ++ " '" := by decide
  rw [hsplit]
  refine ⟨"Error " ++ ("deleting tool '" ++ n ++ "'") ++ ": ",
    " '" ++ n ++ "'. Core tools cannot be deleted.", ?_⟩
  apply String.ext
  simp [wrapError, strData_append, List.append_assoc]

/-- C7: deleting any name on the fixed core-tool deny-list fails with a
`Cannot delete core tool` error and performs zero mutations: no host-layer
removal and no file deletion is attempted, and the state — registry and
store — is unchanged. -/
theorem delete_core_tool_is_protected (removeFailure fileFailure : Option String)
    (st : SysState) (n : String) (h : CORE_TOOLS.contains n = true) :
    (deleteSavedQueryHandler removeFailure fileFailure st n).1.isError = true ∧
    SubstringOf "Cannot delete core tool"
      (deleteSavedQueryHandler removeFailure fileFailure st n).1.text ∧
    (deleteSavedQueryHandler removeFailure fileFailure st n).2.1 = st ∧
    (deleteSavedQueryHandler removeFailure fileFailure st n).2.2 = [] := by
  unfold deleteSavedQueryHandler
  rw [h]
  refine ⟨by simp [errResult], ?_, by simp, by simp⟩
  simpa [errResult] using substringOf_core_tool_message n

/-- Witness for C7: deleting the core tool `save_query`. -/
theorem delete_core_tool_is_protected_witness :
    CORE_TOOLS.contains "save_query" = true ∧
    ((deleteSavedQueryHandler none none emptyState "save_query").1.isError = true ∧
     SubstringOf "Cannot delete core tool"
       (deleteSavedQueryHandler none none emptyState "save_query").1.text ∧
     (deleteSavedQueryHandler none none emptyState "save_query").2.1 = emptyState ∧
     (deleteSavedQueryHandler none none emptyState "save_query").2.2 = []) :=
  ⟨by decide,
   delete_core_tool_is_protected none none emptyState "save_query" (by decide)⟩

/-- A successful lookup means the key occurs in the listing. -/
theorem mem_keys_of_lookupEntry {α : Type} {l : List (String × α)} {k : String}
    {v : α} (h : lookupEntry l k = some v) : k ∈ l.map Prod.fst := by
  induction l with
  | nil => simp [lookupEntry] at h
  | cons e rest ih =>
      obtain ⟨k0, v0⟩ := e
      by_cases hk : k0 = k
      · subst hk
        simp
      · rw [lookupEntry, if_neg hk] at h
        simp [ih h]

/-- If some listed `.json` file whose derived tool name leads back to it
holds a structurally invalid record, the enumeration loop fails. -/
theorem loadAllLoop_error_of_invalid (table : List (String × Json))
    (todo : List (String × Json)) (acc : List (String × Json))
    (fname : String) (content : Json)
    (hmem : fname ∈ todo.map Prod.fst)
    (hlook : lookupEntry table fname = some content)
    (hend : strEndsWith fname ".json" = true)
    (hround : replaceFirst fname ".json" ++ ".json" = fname)
    (hinv : isValidToolConfig content = false) :
    ∃ msg, loadAllLoop table acc todo = Except.error msg := by
  induction todo generalizing acc with
  | nil => simp at hmem
  | cons e rest ih =>
      obtain ⟨g, c0⟩ := e
      by_cases hg : g = fname
      · subst hg
        rw [loadAllLoop, if_pos hend]
        have hload : loadToolFromFile table (replaceFirst g ".json")
            = Except.error ("Failed to load tool '" ++ replaceFirst g ".json"
              ++ "' from file: Invalid tool configuration in file: "
              ++ replaceFirst g ".json" ++ ".json") := by
          simp [loadToolFromFile, hround, hlook, hinv]
        rw [hload]
        exact ⟨_, rfl⟩
      · have hmem2 : fname ∈ rest.map Prod.fst := by
          rw [List.map_cons] at hmem
          rcases List.mem_cons.mp hmem with h | h
          · exact absurd h.symm hg
          · exact h
        rw [loadAllLoop]
        by_cases hge : strEndsWith g ".json" = true
        · rw [if_pos hge]
          rcases hl : loadToolFromFile table (replaceFirst g ".json")
            with e2 | ov
          · exact ⟨e2, rfl⟩
          · rcases ov with _ | cfg
            · exact ih acc hmem2
            · exact ih (setEntry acc (replaceFirst g ".json") cfg) hmem2
        · rw [if_neg hge]
          exact ih acc hmem2

/-- C9 (amended): `loadAllTools` returns an empty mapping, not an error,
when the backing directory does not exist; and it fails as a whole — no
partial result — when a listed `.json` entry whose derived tool name leads
back to its own file holds a record failing the source's structural check
(JS `typeof` semantics: `parameter_schema` of typeof `'object'`, where
`null` and arrays also pass). -/
theorem loadAllTools_empty_dir_and_fail_fast :
    loadAllTools none = Except.ok [] ∧
    ∀ (files : List (String × Json)) (fname : String) (content : Json),
      lookupEntry files fname = some content →
      strEndsWith fname ".json" = true →
      replaceFirst fname ".json" ++ ".json" = fname →
      isValidToolConfig content = false →
      ∃ msg, loadAllTools (some files) = Except.error msg := by
  constructor
  · rfl
  · intro files fname content hlook hend hround hinv
    obtain ⟨msg, hmsg⟩ := loadAllLoop_error_of_invalid files files [] fname content
      (mem_keys_of_lookupEntry hlook) hlook hend hround hinv
    refine ⟨"Failed to load tools from directory: " ++ msg, ?_⟩
    rw [loadAllTools, hmsg]

/-- Witness for C9: a directory holding one `.json` file with a record
missing every required field fails the whole bulk load. -/
theorem loadAllTools_empty_dir_and_fail_fast_witness :
    lookupEntry [("bad.json", badToolRecord)] "bad.json" = some badToolRecord ∧
    strEndsWith "bad.json" ".json" = true ∧
    replaceFirst "bad.json" ".json" ++ ".json" = "bad.json" ∧
    isValidToolConfig badToolRecord = false ∧
    ∃ msg, loadAllTools (some [("bad.json", badToolRecord)]) = Except.error msg :=
  ⟨rfl, by decide, by decide, by decide,
   loadAllTools_empty_dir_and_fail_fast.2 [("bad.json", badToolRecord)]
     "bad.json" badToolRecord rfl (by decide) (by decide) (by decide)⟩

/-- C9 (counterexample to the claim as stated): a stored record whose
`parameter_schema` is JSON `null` is structurally invalid in the claim's
sense — `null` is not an object — yet `isValidToolConfig` accepts it
(`typeof null === 'object'`), so `loadAllTools` succeeds instead of
failing. -/
theorem loadAllTools_accepts_null_parameter_schema :
    specStructurallyValid cfgNullSchema = false ∧
    isValidToolConfig cfgNullSchema = true ∧
    loadAllTools (some [("t.json", cfgNullSchema)])
      = Except.ok [("t", cfgNullSchema)] :=
  ⟨by decide, by decide, rfl⟩
